import Mathlib

/-!
Verification of the Prompt-to-SQL converter (`src/main.py`).

Strings are modelled as `List Char`.  Python's `str.strip()` is modelled over
the ASCII whitespace characters; `str.upper()` is modelled by `Char.toUpper`
(the ASCII case mapping, which is what matters for locating `SELECT`).
-/

namespace PromptToSQL

/-- Characters removed by Python's no-argument `str.strip()` (ASCII range). -/
def isWs (c : Char) : Bool :=
  c == ' ' || c == '\t' || c == '\n' || c == '\r' || c == Char.ofNat 11 || c == Char.ofNat 12

/-- The quote characters of `str.strip('"\'')` on line 159: double or single quote. -/
def isQuote (c : Char) : Bool :=
  c == '"' || c == Char.ofNat 39

/-- The semicolon stripped by `str.rstrip(';')` on line 167. -/
def isSemi (c : Char) : Bool :=
  c == ';'

/-- Remove the leading run of characters satisfying `p` (Python `lstrip`). -/
def dropLeading (p : Char → Bool) (l : List Char) : List Char :=
  l.dropWhile p

/-- Remove the trailing run of characters satisfying `p` (Python `rstrip`). -/
def dropTrailing (p : Char → Bool) (l : List Char) : List Char :=
  (l.reverse.dropWhile p).reverse

/-- Python `str.strip()` with no arguments: trim whitespace from both ends. -/
def pyStrip (l : List Char) : List Char :=
  dropTrailing isWs (dropLeading isWs l)

/-- Python `str.strip('"\'')`: remove every leading and trailing quote character. -/
def stripQuotes (l : List Char) : List Char :=
  dropTrailing isQuote (dropLeading isQuote l)

/-- Fuel-driven worker for `removeAll`; the fuel only serves termination and is
always instantiated with the length of the list. -/
def removeAllFuel (pat : List Char) : Nat → List Char → List Char
  | _, [] => []
  | 0, l => l
  | fuel + 1, c :: cs =>
    if pat.isPrefixOf (c :: cs) && !pat.isEmpty then
      removeAllFuel pat fuel ((c :: cs).drop pat.length)
    else
      c :: removeAllFuel pat fuel cs

/-- Python `str.replace(pat, '')`: delete every occurrence of `pat`, scanning
left to right without overlap (lines 158 and 54). -/
def removeAll (pat l : List Char) : List Char :=
  removeAllFuel pat l.length l

/-- Index of the first occurrence of `pat` in a list (Python `str.find`,
returning `none` instead of `-1`). -/
def findSubstr (pat : List Char) : List Char → Option Nat
  | [] => if pat.isPrefixOf ([] : List Char) then some 0 else none
  | c :: cs =>
    if pat.isPrefixOf (c :: cs) then some 0
    else (findSubstr pat cs).map (· + 1)

def fenceSql : List Char := "```sql".toList

def fence : List Char := "```".toList

def selectUpper : List Char := "SELECT".toList

/-- Lines 158-159 of `generate_sql_query`: remove the fence markers, trim
whitespace, and strip surrounding quote characters. -/
def preQuery (s : List Char) : List Char :=
  stripQuotes (pyStrip (removeAll fence (removeAll fenceSql s)))

/-- Lines 161-164: if `SELECT` occurs case-insensitively, discard everything
before its first occurrence; otherwise leave the text unchanged. -/
def cutSelect (t : List Char) : List Char :=
  match findSubstr selectUpper (t.map Char.toUpper) with
  | some i => t.drop i
  | none => t

/-- The Response Sanitizer, lines 158-167 of `generate_sql_query`:
fence removal, whitespace trim, quote strip, cut to the first
case-insensitive `SELECT`, then `rstrip(';').strip()`. -/
def sanitize (s : List Char) : List Char :=
  pyStrip (dropTrailing isSemi (cutSelect (preQuery s)))

/-! ### Facts about `List.isPrefixOf`, occurrences, and `findSubstr` -/

theorem isPrefixOf_append_self (pat b : List Char) : pat.isPrefixOf (pat ++ b) = true := by
  induction pat with
  | nil => simp [List.isPrefixOf]
  | cons c cs ih => simp [List.isPrefixOf, ih]

theorem exists_append_of_isPrefixOf {pat l : List Char} (h : pat.isPrefixOf l = true) :
    ∃ b, l = pat ++ b := by
  induction pat generalizing l with
  | nil => exact ⟨l, rfl⟩
  | cons c cs ih =>
    cases l with
    | nil => simp [List.isPrefixOf] at h
    | cons d ds =>
      simp only [List.isPrefixOf, Bool.and_eq_true, beq_iff_eq] at h
      obtain ⟨b, hb⟩ := ih h.2
      exact ⟨b, by simp [h.1, hb]⟩

/-- `pat` occurs as a contiguous substring of `l`. -/
def occursIn (pat l : List Char) : Prop := ∃ a b, l = a ++ pat ++ b

theorem occursIn_of_isPrefixOf {pat l : List Char} (h : pat.isPrefixOf l = true) :
    occursIn pat l := by
  obtain ⟨b, hb⟩ := exists_append_of_isPrefixOf h
  exact ⟨[], b, by simp [hb]⟩

theorem isPrefixOf_of_eq_append {pat b l : List Char} (h : l = pat ++ b) :
    pat.isPrefixOf l = true := by
  subst h; exact isPrefixOf_append_self pat b

theorem occursIn_cons {pat : List Char} {c : Char} {cs : List Char} :
    occursIn pat (c :: cs) ↔ pat.isPrefixOf (c :: cs) = true ∨ occursIn pat cs := by
  constructor
  · rintro ⟨a, b, hab⟩
    cases a with
    | nil => exact Or.inl (isPrefixOf_of_eq_append (by simpa using hab))
    | cons x xs =>
      simp only [List.cons_append, List.cons.injEq] at hab
      exact Or.inr ⟨xs, b, hab.2⟩
  · rintro (h | ⟨a, b, hab⟩)
    · exact occursIn_of_isPrefixOf h
    · exact ⟨c :: a, b, by simp [hab]⟩

theorem not_occursIn_nil {pat : List Char} (h : pat ≠ []) : ¬ occursIn pat [] := by
  rintro ⟨a, b, hab⟩
  have := (List.append_eq_nil.mp hab.symm).1
  exact h (List.append_eq_nil.mp this).2

theorem occursIn_mono {pat x : List Char} (a b : List Char) (h : occursIn pat x) :
    occursIn pat (a ++ x ++ b) := by
  obtain ⟨u, v, huv⟩ := h
  exact ⟨a ++ u, v ++ b, by simp [huv]⟩

theorem occursIn_map {pat x : List Char} (f : Char → Char) (h : occursIn pat x) :
    occursIn (pat.map f) (x.map f) := by
  obtain ⟨u, v, huv⟩ := h
  exact ⟨u.map f, v.map f, by simp [huv]⟩

theorem not_occursIn_of_findSubstr_none {pat : List Char} :
    ∀ {l : List Char}, findSubstr pat l = none → ¬ occursIn pat l := by
  intro l
  induction l with
  | nil =>
    intro h
    simp only [findSubstr] at h
    split at h
    · exact absurd h (by simp)
    · rintro ⟨a, b, hab⟩
      rename_i hpre
      have ha := List.append_eq_nil.mp hab.symm
      have hpat := (List.append_eq_nil.mp ha.1).2
      exact hpre (by simp [hpat, List.isPrefixOf])
  | cons c cs ih =>
    intro h
    simp only [findSubstr] at h
    split at h
    · exact absurd h (by simp)
    · rename_i hpre
      have hnone : findSubstr pat cs = none := Option.map_eq_none'.mp h
      intro hocc
      rcases occursIn_cons.mp hocc with h1 | h2
      · exact hpre h1
      · exact ih hnone h2

theorem findSubstr_some_spec {pat : List Char} :
    ∀ {l : List Char} {i : Nat}, findSubstr pat l = some i →
      pat.isPrefixOf (l.drop i) = true ∧ ∀ j, j < i → pat.isPrefixOf (l.drop j) = false := by
  intro l
  induction l with
  | nil =>
    intro i h
    simp only [findSubstr] at h
    split at h
    · rename_i hpre
      cases h
      exact ⟨by simpa using hpre, by intro j hj; omega⟩
    · exact absurd h (by simp)
  | cons c cs ih =>
    intro i h
    simp only [findSubstr] at h
    split at h
    · rename_i hpre
      cases h
      exact ⟨by simpa using hpre, by intro j hj; omega⟩
    · rename_i hpre
      cases hfs : findSubstr pat cs with
      | none => rw [hfs] at h; exact absurd h (by simp)
      | some k =>
        rw [hfs] at h
        simp only [Option.map_some', Option.some.injEq] at h
        obtain ⟨h1, h2⟩ := ih hfs
        subst h
        refine ⟨by simpa using h1, ?_⟩
        intro j hj
        cases j with
        | zero => simpa using (Bool.not_eq_true _).mp hpre
        | succ j' => simpa using h2 j' (by omega)

theorem findSubstr_zero_of_isPrefixOf {pat l : List Char} (h : pat.isPrefixOf l = true) :
    findSubstr pat l = some 0 := by
  cases l <;> simp [findSubstr, h]

/-! ### Rewriting equations for `removeAll` -/

theorem removeAllFuel_congr (pat : List Char) :
    ∀ (f : Nat) (l : List Char) (g : Nat), l.length ≤ f → l.length ≤ g →
      removeAllFuel pat f l = removeAllFuel pat g l := by
  intro f
  induction f with
  | zero =>
    intro l g hf _
    have : l = [] := List.eq_nil_of_length_eq_zero (Nat.le_zero.mp hf)
    subst this
    cases g <;> rfl
  | succ f ih =>
    intro l g hf hg
    cases l with
    | nil => cases g <;> rfl
    | cons c cs =>
      cases g with
      | zero => simp at hg
      | succ g' =>
        simp only [removeAllFuel]
        split
        · rename_i hcond
          have hne : pat ≠ [] := by
            intro hp
            subst hp
            simp [List.isEmpty] at hcond
          have hpos : 0 < pat.length := List.length_pos.mpr hne
          have hlen : ((c :: cs).drop pat.length).length ≤ cs.length := by
            simp only [List.length_drop, List.length_cons]
            omega
          have h1 : cs.length ≤ f := by simpa using hf
          have h2 : cs.length ≤ g' := by simpa using hg
          exact ih _ _ (le_trans hlen h1) (le_trans hlen h2)
        · have h1 : cs.length ≤ f := by simpa using hf
          have h2 : cs.length ≤ g' := by simpa using hg
          exact congrArg (c :: ·) (ih cs g' h1 h2)

theorem removeAll_nil (pat : List Char) : removeAll pat [] = [] := rfl

theorem removeAll_cons (pat : List Char) (c : Char) (cs : List Char) :
    removeAll pat (c :: cs) =
      if pat.isPrefixOf (c :: cs) && !pat.isEmpty then
        removeAll pat ((c :: cs).drop pat.length)
      else
        c :: removeAll pat cs := by
  show removeAllFuel pat (cs.length + 1) (c :: cs) = _
  simp only [removeAllFuel]
  split
  · rename_i hcond
    have hne : pat ≠ [] := by
      intro hp
      subst hp
      simp [List.isEmpty] at hcond
    have hpos : 0 < pat.length := List.length_pos.mpr hne
    have hlen : ((c :: cs).drop pat.length).length ≤ cs.length := by
      simp only [List.length_drop, List.length_cons]
      omega
    exact removeAllFuel_congr pat cs.length _ _ hlen (le_refl _)
  · rfl

theorem removeAll_cons_pos {pat : List Char} (hne : pat ≠ []) {c : Char} {cs : List Char}
    (h : pat.isPrefixOf (c :: cs) = true) :
    removeAll pat (c :: cs) = removeAll pat ((c :: cs).drop pat.length) := by
  rw [removeAll_cons, if_pos]
  simp [h, List.isEmpty_iff, hne]

theorem removeAll_cons_neg {pat : List Char} {c : Char} {cs : List Char}
    (h : pat.isPrefixOf (c :: cs) = false) :
    removeAll pat (c :: cs) = c :: removeAll pat cs := by
  rw [removeAll_cons, if_neg]
  simp [h]

theorem removeAll_eq_self {pat : List Char} :
    ∀ {l : List Char}, ¬ occursIn pat l → removeAll pat l = l := by
  intro l
  induction l with
  | nil => intro _; rfl
  | cons c cs ih =>
    intro h
    rw [occursIn_cons] at h
    push_neg at h
    rw [removeAll_cons_neg ((Bool.not_eq_true _).mp h.1), ih h.2]

/-! ### After `replace('```', '')` no fence marker remains

This underpins idempotence questions: a removal pass never leaves (or
re-creates) a run of three backticks. -/

/-- The backtick character. -/
def btick : Char := Char.ofNat 96

theorem fence_eq : fence = [btick, btick, btick] := by decide

theorem isPrefixOf_cons₂ (p c : Char) (ps cs : List Char) :
    (p :: ps).isPrefixOf (c :: cs) = ((p == c) && ps.isPrefixOf cs) := rfl

theorem btick1_not_prefixOf_removeAll (ds : List Char)
    (h : [btick].isPrefixOf ds = false) :
    [btick].isPrefixOf (removeAll fence ds) = false := by
  match ds with
  | [] => rw [removeAll_nil]; decide
  | e :: es =>
    have he : (btick == e) = false := by
      rw [isPrefixOf_cons₂, show ([] : List Char).isPrefixOf es = true by cases es <;> rfl,
        Bool.and_true] at h
      exact h
    have hf2 : fence.isPrefixOf (e :: es) = false := by
      rw [fence_eq, isPrefixOf_cons₂, he, Bool.false_and]
    rw [removeAll_cons_neg hf2, isPrefixOf_cons₂, he, Bool.false_and]

theorem btick2_not_prefixOf_removeAll (cs : List Char)
    (h : [btick, btick].isPrefixOf cs = false) :
    [btick, btick].isPrefixOf (removeAll fence cs) = false := by
  match cs with
  | [] => rw [removeAll_nil]; decide
  | d :: ds =>
    by_cases hdb : (btick == d) = true
    · have h1 : [btick].isPrefixOf ds = false := by
        rw [isPrefixOf_cons₂, hdb, Bool.true_and] at h
        exact h
      have hds2 : [btick, btick].isPrefixOf ds = false := by
        match ds with
        | [] => decide
        | e :: es =>
          have he : (btick == e) = false := by
            rw [isPrefixOf_cons₂, show ([] : List Char).isPrefixOf es = true by cases es <;> rfl,
              Bool.and_true] at h1
            exact h1
          rw [isPrefixOf_cons₂, he, Bool.false_and]
      have hf : fence.isPrefixOf (d :: ds) = false := by
        rw [fence_eq, isPrefixOf_cons₂, hdb, Bool.true_and]
        exact hds2
      rw [removeAll_cons_neg hf, isPrefixOf_cons₂, hdb, Bool.true_and]
      exact btick1_not_prefixOf_removeAll ds h1
    · have hd : (btick == d) = false := (Bool.not_eq_true _).mp hdb
      have hf : fence.isPrefixOf (d :: ds) = false := by
        rw [fence_eq, isPrefixOf_cons₂, hd, Bool.false_and]
      rw [removeAll_cons_neg hf, isPrefixOf_cons₂, hd, Bool.false_and]

theorem fence_free_aux : ∀ (n : Nat) (s : List Char), s.length ≤ n →
    ¬ occursIn fence (removeAll fence s) := by
  intro n
  induction n with
  | zero =>
    intro s hs
    have : s = [] := List.eq_nil_of_length_eq_zero (Nat.le_zero.mp hs)
    subst this
    rw [removeAll_nil]
    exact not_occursIn_nil (by decide)
  | succ n ih =>
    intro s hs
    cases s with
    | nil => rw [removeAll_nil]; exact not_occursIn_nil (by decide)
    | cons c cs =>
      have hcs : cs.length ≤ n := by simpa using hs
      by_cases hpre : fence.isPrefixOf (c :: cs) = true
      · rw [removeAll_cons_pos (by decide) hpre]
        apply ih
        have h3 : fence.length = 3 := by decide
        have hle : ((c :: cs).drop fence.length).length ≤ cs.length := by
          simp only [List.length_drop, List.length_cons]
          omega
        exact le_trans hle hcs
      · rw [removeAll_cons_neg ((Bool.not_eq_true _).mp hpre)]
        intro hocc
        rcases occursIn_cons.mp hocc with h1 | h2
        · by_cases hcb : (btick == c) = true
          · have hcs2 : [btick, btick].isPrefixOf cs = false := by
              have hp := (Bool.not_eq_true _).mp hpre
              rw [fence_eq, isPrefixOf_cons₂, hcb, Bool.true_and] at hp
              exact hp
            have hr := btick2_not_prefixOf_removeAll cs hcs2
            rw [fence_eq] at hr
            rw [fence_eq, isPrefixOf_cons₂, hcb, Bool.true_and, hr] at h1
            exact absurd h1 (by decide)
          · have hd : (btick == c) = false := (Bool.not_eq_true _).mp hcb
            rw [fence_eq, isPrefixOf_cons₂, hd, Bool.false_and] at h1
            exact absurd h1 (by decide)
        · exact ih cs hcs h2

/-- The `replace('```', '')` pass leaves no fence marker in its output. -/
theorem fence_free (s : List Char) : ¬ occursIn fence (removeAll fence s) :=
  fence_free_aux s.length s (le_refl _)

/-! ### `dropWhile` / `dropTrailing` toolkit -/

theorem dropWhile_eq_self_of_head {p : Char → Bool} {l : List Char}
    (h : ∀ c, l.head? = some c → p c = false) : l.dropWhile p = l := by
  cases l with
  | nil => rfl
  | cons c cs => simp [List.dropWhile_cons, h c rfl]

theorem head?_dropWhile {p : Char → Bool} :
    ∀ {l : List Char} {c : Char}, (l.dropWhile p).head? = some c → p c = false := by
  intro l
  induction l with
  | nil => intro c h; simp [List.dropWhile] at h
  | cons d ds ih =>
    intro c h
    rw [List.dropWhile_cons] at h
    split at h
    · exact ih h
    · rename_i hd
      cases h
      exact (Bool.not_eq_true _).mp hd

theorem dropLeading_decomp (p : Char → Bool) (l : List Char) :
    ∃ a, l = a ++ dropLeading p l ∧ ∀ c ∈ a, p c = true :=
  ⟨l.takeWhile p, (List.takeWhile_append_dropWhile p l).symm,
    fun _ hc => List.mem_takeWhile_imp hc⟩

theorem dropTrailing_decomp (p : Char → Bool) (l : List Char) :
    ∃ b, l = dropTrailing p l ++ b ∧ ∀ c ∈ b, p c = true := by
  refine ⟨(l.reverse.takeWhile p).reverse, ?_, ?_⟩
  · conv_lhs => rw [← List.reverse_reverse l, ← List.takeWhile_append_dropWhile p l.reverse]
    rw [List.reverse_append]
    rfl
  · intro c hc
    exact List.mem_takeWhile_imp (List.mem_reverse.mp hc)

theorem getLast?_dropTrailing {p : Char → Bool} {l : List Char} {c : Char}
    (h : (dropTrailing p l).getLast? = some c) : p c = false := by
  unfold dropTrailing at h
  rw [List.getLast?_reverse] at h
  exact head?_dropWhile h

theorem dropTrailing_eq_self {p : Char → Bool} {l : List Char}
    (h : ∀ c, l.getLast? = some c → p c = false) : dropTrailing p l = l := by
  unfold dropTrailing
  rw [dropWhile_eq_self_of_head, List.reverse_reverse]
  intro c hc
  rw [List.head?_reverse] at hc
  exact h c hc

theorem head?_dropTrailing_of_ne_nil {p : Char → Bool} {l : List Char}
    (h : dropTrailing p l ≠ []) : (dropTrailing p l).head? = l.head? := by
  obtain ⟨b, hb, _⟩ := dropTrailing_decomp p l
  conv_rhs => rw [hb]
  rw [List.head?_append_of_ne_nil _ h]

theorem dropTrailing_append {p : Char → Bool} {a : List Char} (b : List Char)
    (ha : ∀ c, a.getLast? = some c → p c = false) :
    dropTrailing p (a ++ b) = a ++ dropTrailing p b := by
  unfold dropTrailing
  rw [List.reverse_append, List.dropWhile_append]
  split
  · rename_i hemp
    have hrb : (b.reverse.dropWhile p).reverse = [] := by
      rw [List.isEmpty_iff.mp hemp]
      rfl
    rw [dropWhile_eq_self_of_head, List.reverse_reverse, hrb, List.append_nil]
    intro c hc
    rw [List.head?_reverse] at hc
    exact ha c hc
  · rw [List.reverse_append, List.reverse_reverse]

/-! ### Segment structure of the sanitizer's stages -/

theorem occursIn_refl (x : List Char) : occursIn x x := ⟨[], [], by simp⟩

theorem occursIn_trans {x y z : List Char} (hxy : occursIn x y) (hyz : occursIn y z) :
    occursIn x z := by
  obtain ⟨a, b, hab⟩ := hxy
  obtain ⟨c, d, hcd⟩ := hyz
  exact ⟨c ++ a, b ++ d, by simp [hcd, hab]⟩

theorem seg_dropLeading (p : Char → Bool) (l : List Char) : occursIn (dropLeading p l) l := by
  obtain ⟨a, ha, _⟩ := dropLeading_decomp p l
  exact ⟨a, [], by simpa using ha⟩

theorem seg_dropTrailing (p : Char → Bool) (l : List Char) : occursIn (dropTrailing p l) l := by
  obtain ⟨b, hb, _⟩ := dropTrailing_decomp p l
  exact ⟨[], b, by simpa using hb⟩

theorem seg_pyStrip (l : List Char) : occursIn (pyStrip l) l :=
  occursIn_trans (seg_dropTrailing isWs (dropLeading isWs l)) (seg_dropLeading isWs l)

theorem seg_stripQuotes (l : List Char) : occursIn (stripQuotes l) l :=
  occursIn_trans (seg_dropTrailing isQuote (dropLeading isQuote l)) (seg_dropLeading isQuote l)

theorem seg_drop (i : Nat) (l : List Char) : occursIn (l.drop i) l :=
  ⟨l.take i, [], by simp⟩

theorem seg_cutSelect (t : List Char) : occursIn (cutSelect t) t := by
  unfold cutSelect
  split
  · exact seg_drop _ t
  · exact occursIn_refl t

theorem seg_sanitize_cut (s : List Char) : occursIn (sanitize s) (cutSelect (preQuery s)) :=
  occursIn_trans (seg_pyStrip _) (seg_dropTrailing isSemi (cutSelect (preQuery s)))

theorem seg_sanitize (s : List Char) :
    occursIn (sanitize s) (removeAll fence (removeAll fenceSql s)) :=
  occursIn_trans (seg_sanitize_cut s)
    (occursIn_trans (seg_cutSelect (preQuery s))
      (occursIn_trans (seg_stripQuotes _) (seg_pyStrip _)))

theorem fenceSql_eq_fence_append : fenceSql = fence ++ "sql".toList := by decide

theorem occursIn_fence_of_occursIn_fenceSql {x : List Char} (h : occursIn fenceSql x) :
    occursIn fence x := by
  obtain ⟨a, b, hab⟩ := h
  rw [fenceSql_eq_fence_append] at hab
  exact ⟨a, "sql".toList ++ b, by simp [hab]⟩

theorem no_fence_in_sanitize (s : List Char) : ¬ occursIn fence (sanitize s) :=
  fun h => fence_free (removeAll fenceSql s) (occursIn_trans h (seg_sanitize s))

theorem no_fenceSql_in_sanitize (s : List Char) : ¬ occursIn fenceSql (sanitize s) :=
  fun h => no_fence_in_sanitize s (occursIn_fence_of_occursIn_fenceSql h)

/-! ### End-character facts about `pyStrip` and the sanitizer -/

theorem mem_of_head?_eq {l : List Char} {c : Char} (h : l.head? = some c) : c ∈ l :=
  List.mem_of_mem_head? h

theorem head?_strip2 {p : Char → Bool} {l : List Char} {c : Char}
    (h : (dropTrailing p (dropLeading p l)).head? = some c) : p c = false := by
  have hne : dropTrailing p (dropLeading p l) ≠ [] := by
    intro h0
    rw [h0] at h
    cases h
  rw [head?_dropTrailing_of_ne_nil hne] at h
  exact head?_dropWhile h

theorem head?_pyStrip {l : List Char} {c : Char} (h : (pyStrip l).head? = some c) :
    isWs c = false :=
  head?_strip2 h

theorem getLast?_pyStrip {l : List Char} {c : Char} (h : (pyStrip l).getLast? = some c) :
    isWs c = false :=
  getLast?_dropTrailing h

theorem pyStrip_eq_self {l : List Char}
    (hh : ∀ c, l.head? = some c → isWs c = false)
    (hl : ∀ c, l.getLast? = some c → isWs c = false) : pyStrip l = l := by
  unfold pyStrip dropLeading
  rw [dropWhile_eq_self_of_head hh]
  exact dropTrailing_eq_self hl

theorem stripQuotes_eq_self {l : List Char}
    (hh : ∀ c, l.head? = some c → isQuote c = false)
    (hl : ∀ c, l.getLast? = some c → isQuote c = false) : stripQuotes l = l := by
  unfold stripQuotes dropLeading
  rw [dropWhile_eq_self_of_head hh]
  exact dropTrailing_eq_self hl

/-- A character whose uppercase form is one of the letters of `SELECT` is
neither whitespace nor a semicolon. -/
theorem sel_char_not_ws_semi (c : Char) (hc : Char.toUpper c ∈ selectUpper) :
    isWs c = false ∧ isSemi c = false := by
  constructor
  · cases hws : isWs c with
    | false => rfl
    | true =>
      exfalso
      have hd : ((((c = ' ' ∨ c = '\t') ∨ c = '\n') ∨ c = '\r') ∨
          c = Char.ofNat 11) ∨ c = Char.ofNat 12 := by
        simpa [isWs] using hws
      rcases hd with ((((h|h)|h)|h)|h)|h <;> subst h <;> revert hc <;> decide
  · cases hsm : isSemi c with
    | false => rfl
    | true =>
      exfalso
      have hd : c = ';' := by simpa [isSemi] using hsm
      subst hd
      revert hc
      decide

theorem cutSelect_of_none {t : List Char}
    (h : findSubstr selectUpper (t.map Char.toUpper) = none) : cutSelect t = t := by
  unfold cutSelect
  rw [h]

theorem cutSelect_of_some {t : List Char} {i : Nat}
    (h : findSubstr selectUpper (t.map Char.toUpper) = some i) : cutSelect t = t.drop i := by
  unfold cutSelect
  rw [h]

/-- When a case-insensitive `SELECT` is found, the sanitizer's output still
starts with those six characters: the trailing strips cannot eat into them. -/
theorem select_heads_sanitize {s : List Char} {i : Nat}
    (hfs : findSubstr selectUpper ((preQuery s).map Char.toUpper) = some i) :
    selectUpper.isPrefixOf ((sanitize s).map Char.toUpper) = true := by
  have hp : selectUpper.isPrefixOf (((preQuery s).map Char.toUpper).drop i) = true :=
    (findSubstr_some_spec hfs).1
  have hp' : selectUpper.isPrefixOf (((preQuery s).drop i).map Char.toUpper) = true := by
    rw [List.map_drop]
    exact hp
  obtain ⟨b, hb⟩ := exists_append_of_isPrefixOf hp'
  have hlen6 : selectUpper.length = 6 := by decide
  have hulen : 6 ≤ ((preQuery s).drop i).length := by
    have hm : (((preQuery s).drop i).map Char.toUpper).length = 6 + b.length := by
      rw [hb, List.length_append, hlen6]
    rw [List.length_map] at hm
    omega
  have hu : (preQuery s).drop i
      = ((preQuery s).drop i).take 6 ++ ((preQuery s).drop i).drop 6 :=
    (List.take_append_drop 6 _).symm
  have hsix_map : (((preQuery s).drop i).take 6).map Char.toUpper = selectUpper := by
    rw [List.map_take, hb, ← hlen6, List.take_left]
  have hmem : ∀ c ∈ ((preQuery s).drop i).take 6, Char.toUpper c ∈ selectUpper := by
    intro c hc
    rw [← hsix_map]
    exact List.mem_map_of_mem _ hc
  have hsix_ne : ((preQuery s).drop i).take 6 ≠ [] := by
    have hl : (((preQuery s).drop i).take 6).length = 6 := by
      rw [List.length_take]
      omega
    intro h0
    rw [h0] at hl
    simp at hl
  have hnosemi : ∀ c, (((preQuery s).drop i).take 6).getLast? = some c → isSemi c = false :=
    fun c hc => (sel_char_not_ws_semi c (hmem c (List.mem_of_mem_getLast? hc))).2
  have hnows : ∀ c, (((preQuery s).drop i).take 6).getLast? = some c → isWs c = false :=
    fun c hc => (sel_char_not_ws_semi c (hmem c (List.mem_of_mem_getLast? hc))).1
  have hcut : cutSelect (preQuery s) = (preQuery s).drop i := cutSelect_of_some hfs
  have e1 : dropTrailing isSemi ((preQuery s).drop i)
      = ((preQuery s).drop i).take 6
        ++ dropTrailing isSemi (((preQuery s).drop i).drop 6) := by
    conv_lhs => rw [hu]
    exact dropTrailing_append _ hnosemi
  have hheadne : ∀ c,
      (((preQuery s).drop i).take 6 ++ dropTrailing isSemi (((preQuery s).drop i).drop 6)).head?
        = some c → isWs c = false := by
    intro c hc
    rw [List.head?_append_of_ne_nil _ hsix_ne] at hc
    exact (sel_char_not_ws_semi c (hmem c (mem_of_head?_eq hc))).1
  have e2 : pyStrip (((preQuery s).drop i).take 6
        ++ dropTrailing isSemi (((preQuery s).drop i).drop 6))
      = ((preQuery s).drop i).take 6
        ++ dropTrailing isWs (dropTrailing isSemi (((preQuery s).drop i).drop 6)) := by
    unfold pyStrip dropLeading
    rw [dropWhile_eq_self_of_head hheadne]
    exact dropTrailing_append _ hnows
  have hsan : sanitize s = ((preQuery s).drop i).take 6
      ++ dropTrailing isWs (dropTrailing isSemi (((preQuery s).drop i).drop 6)) := by
    show pyStrip (dropTrailing isSemi (cutSelect (preQuery s))) = _
    rw [hcut, e1, e2]
  rw [hsan, List.map_append, hsix_map]
  exact isPrefixOf_append_self _ _

theorem cutSelect_sanitize_eq_self (s : List Char) : cutSelect (sanitize s) = sanitize s := by
  cases hfs : findSubstr selectUpper ((preQuery s).map Char.toUpper) with
  | some i =>
    have hpref := select_heads_sanitize hfs
    rw [cutSelect_of_some (findSubstr_zero_of_isPrefixOf hpref), List.drop_zero]
  | none =>
    have hno : ¬ occursIn selectUpper ((preQuery s).map Char.toUpper) :=
      not_occursIn_of_findSubstr_none hfs
    have hseg : occursIn (sanitize s) (preQuery s) :=
      occursIn_trans (seg_sanitize_cut s) (seg_cutSelect (preQuery s))
    have hnone : findSubstr selectUpper ((sanitize s).map Char.toUpper) = none := by
      cases hfs2 : findSubstr selectUpper ((sanitize s).map Char.toUpper) with
      | none => rfl
      | some j =>
        exfalso
        have hp := (findSubstr_some_spec hfs2).1
        have hocc : occursIn selectUpper ((sanitize s).map Char.toUpper) :=
          occursIn_trans (occursIn_of_isPrefixOf hp) (seg_drop j _)
        exact hno (occursIn_trans hocc (occursIn_map Char.toUpper hseg))
    exact cutSelect_of_none hnone

/-- Claim C1 (amended): the Response Sanitizer is idempotent on every input
whose sanitized output does not start or end with a quote character and does
not end with a semicolon.  (The unconditional claim fails: see
`sanitize_not_idempotent`.) -/
theorem sanitize_idempotent_of_clean_ends (s : List Char)
    (h1 : ((sanitize s).head?.all fun c => !(isQuote c)) = true)
    (h2 : ((sanitize s).getLast?.all fun c => !(isQuote c) && !(isSemi c)) = true) :
    sanitize (sanitize s) = sanitize s := by
  have hq_head : ∀ c, (sanitize s).head? = some c → isQuote c = false := by
    intro c hc
    rw [hc] at h1
    simpa using h1
  have hq_last : ∀ c, (sanitize s).getLast? = some c → isQuote c = false := by
    intro c hc
    rw [hc] at h2
    simp at h2
    exact h2.1
  have hsemi_last : ∀ c, (sanitize s).getLast? = some c → isSemi c = false := by
    intro c hc
    rw [hc] at h2
    simp at h2
    exact h2.2
  have hws_head : ∀ c, (sanitize s).head? = some c → isWs c = false :=
    fun _ hc => head?_pyStrip hc
  have hws_last : ∀ c, (sanitize s).getLast? = some c → isWs c = false :=
    fun _ hc => getLast?_pyStrip hc
  have e1 : removeAll fenceSql (sanitize s) = sanitize s :=
    removeAll_eq_self (no_fenceSql_in_sanitize s)
  have e2 : removeAll fence (sanitize s) = sanitize s :=
    removeAll_eq_self (no_fence_in_sanitize s)
  have e3 : pyStrip (sanitize s) = sanitize s := pyStrip_eq_self hws_head hws_last
  have e4 : stripQuotes (sanitize s) = sanitize s := stripQuotes_eq_self hq_head hq_last
  have e5 : preQuery (sanitize s) = sanitize s := by
    unfold preQuery
    rw [e1, e2, e3, e4]
  have e7 : dropTrailing isSemi (sanitize s) = sanitize s := dropTrailing_eq_self hsemi_last
  calc sanitize (sanitize s)
      = pyStrip (dropTrailing isSemi (cutSelect (preQuery (sanitize s)))) := rfl
    _ = sanitize s := by rw [e5, cutSelect_sanitize_eq_self s, e7, e3]

/-- Witness for `sanitize_idempotent_of_clean_ends` at the input `"SELECT 1"`. -/
theorem sanitize_idempotent_witness :
    (((sanitize "SELECT 1".toList).head?.all fun c => !(isQuote c)) = true)
    ∧ (((sanitize "SELECT 1".toList).getLast?.all fun c => !(isQuote c) && !(isSemi c)) = true)
    ∧ sanitize (sanitize "SELECT 1".toList) = sanitize "SELECT 1".toList :=
  ⟨by decide, by decide,
    sanitize_idempotent_of_clean_ends "SELECT 1".toList (by decide) (by decide)⟩

/-- Claim C1 (counterexample): the sanitizer is not idempotent as stated.  On
the raw completion `"SELECT 1; ;"` one pass yields `"SELECT 1;"`, and a second
pass yields `"SELECT 1"`. -/
theorem sanitize_not_idempotent :
    sanitize (sanitize "SELECT 1; ;".toList) ≠ sanitize "SELECT 1; ;".toList := by
  decide

/-- Claim C2 (amended): the sanitizer's output never ends with a whitespace
character.  (It can end with a semicolon: see `sanitize_trailing_semicolon`.) -/
theorem sanitize_no_trailing_ws (s : List Char) (c : Char)
    (h : (sanitize s).getLast? = some c) : isWs c = false :=
  getLast?_pyStrip h

/-- Witness for `sanitize_no_trailing_ws` at the input `"SELECT 1 "`. -/
theorem sanitize_no_trailing_ws_witness :
    (sanitize "SELECT 1 ".toList).getLast? = some '1' ∧ isWs '1' = false :=
  ⟨by decide, sanitize_no_trailing_ws "SELECT 1 ".toList '1' (by decide)⟩

/-- Claim C2 (counterexample): the output can end with a semicolon when the
input's tail interleaves semicolons and whitespace — `rstrip(';').strip()` is a
single pass, so `"SELECT 1; ;"` sanitizes to `"SELECT 1;"`. -/
theorem sanitize_trailing_semicolon :
    (sanitize "SELECT 1; ;".toList).getLast? = some ';' := by
  decide

/-- Claim C3 (amended): `strip('"\'')` removes every surrounding quote
character from both ends, not just one layer: what is removed on each side is
all quotes, and the remaining core has no quote at either end. -/
theorem stripQuotes_removes_all_layers (s : List Char) :
    ∃ a b, s = a ++ stripQuotes s ++ b
      ∧ a.all isQuote = true ∧ b.all isQuote = true
      ∧ ((stripQuotes s).head?.all fun c => !(isQuote c)) = true
      ∧ ((stripQuotes s).getLast?.all fun c => !(isQuote c)) = true := by
  obtain ⟨a, ha, hamem⟩ := dropLeading_decomp isQuote s
  obtain ⟨b, hb, hbmem⟩ := dropTrailing_decomp isQuote (dropLeading isQuote s)
  refine ⟨a, b, ?_, ?_, ?_, ?_, ?_⟩
  · conv_lhs => rw [ha, hb]
    rw [List.append_assoc]
    rfl
  · simpa [List.all_eq_true] using hamem
  · simpa [List.all_eq_true] using hbmem
  · cases hh : (stripQuotes s).head? with
    | none => rfl
    | some c =>
      have : isQuote c = false := head?_strip2 hh
      simp [this]
  · cases hh : (stripQuotes s).getLast? with
    | none => rfl
    | some c =>
      have : isQuote c = false := getLast?_dropTrailing hh
      simp [this]

/-- Claim C3 (counterexample): on `""x""` the step yields `x`, not the
one-layer-removed `"x"` that the claim predicts. -/
theorem stripQuotes_not_one_layer :
    stripQuotes "\"\"x\"\"".toList = "x".toList
    ∧ "x".toList ≠ "\"x\"".toList := ⟨by decide, by decide⟩

/-- Claim C4 (amended): when no case-insensitive `SELECT` occurs in the
fence-stripped, trimmed, quote-stripped text, the cut step is skipped — the
sanitizer still applies the other steps, so the output is that intermediate
text with trailing semicolons and whitespace stripped (not the raw input
as-is). -/
theorem sanitize_no_select (s : List Char)
    (h : findSubstr selectUpper ((preQuery s).map Char.toUpper) = none) :
    sanitize s = pyStrip (dropTrailing isSemi (preQuery s)) := by
  show pyStrip (dropTrailing isSemi (cutSelect (preQuery s))) = _
  rw [cutSelect_of_none h]

/-- Witness for `sanitize_no_select` at the input `"hello;"`. -/
theorem sanitize_no_select_witness :
    findSubstr selectUpper ((preQuery "hello;".toList).map Char.toUpper) = none
    ∧ sanitize "hello;".toList = pyStrip (dropTrailing isSemi (preQuery "hello;".toList)) :=
  ⟨by decide, sanitize_no_select "hello;".toList (by decide)⟩

/-- Claim C4 (counterexample): a SELECT-free response is not passed through
unchanged — `" hello "` comes back trimmed to `"hello"`. -/
theorem sanitize_changes_select_free_input :
    sanitize " hello ".toList = "hello".toList
    ∧ sanitize " hello ".toList ≠ " hello ".toList := ⟨by decide, by decide⟩

/-- Claim C5: when a case-insensitive `SELECT` occurs in the cleaned text, the
output is exactly the text from the first such occurrence onward (original
character case preserved, nothing after it dropped) up to the trailing
semicolon/whitespace strip; no earlier position matches `SELECT`. -/
theorem sanitize_cut_at_first_select (s : List Char) (i : Nat)
    (h : findSubstr selectUpper ((preQuery s).map Char.toUpper) = some i) :
    sanitize s = pyStrip (dropTrailing isSemi ((preQuery s).drop i))
    ∧ selectUpper.isPrefixOf (((preQuery s).drop i).map Char.toUpper) = true
    ∧ ∀ j, j < i → selectUpper.isPrefixOf (((preQuery s).drop j).map Char.toUpper) = false := by
  refine ⟨?_, ?_, ?_⟩
  · show pyStrip (dropTrailing isSemi (cutSelect (preQuery s))) = _
    rw [cutSelect_of_some h]
  · rw [List.map_drop]
    exact (findSubstr_some_spec h).1
  · intro j hj
    rw [List.map_drop]
    exact (findSubstr_some_spec h).2 j hj

/-- Witness for `sanitize_cut_at_first_select` on a response with leading
commentary: the first `select` sits at index 12 of the cleaned text. -/
theorem sanitize_cut_at_first_select_witness :
    findSubstr selectUpper
        ((preQuery "The answer: select * from t;".toList).map Char.toUpper) = some 12
    ∧ sanitize "The answer: select * from t;".toList
        = pyStrip (dropTrailing isSemi ((preQuery "The answer: select * from t;".toList).drop 12)) :=
  ⟨by decide, (sanitize_cut_at_first_select "The answer: select * from t;".toList 12 (by decide)).1⟩

/-! ## Model Selector (`get_available_model`, lines 34-72) -/

/-- One entry of the provider's model catalog. -/
structure ModelEntry where
  name : List Char
  supportedGenerationMethods : List (List Char)

/-- Outcome of the catalog fetch: an HTTP response carrying the status code
and the `models` key (absent when the JSON has no such key), or an exception
anywhere in the fetch/processing (caught on lines 68-69). -/
inductive CatalogOutcome where
  | response (status : Nat) (modelsKey : Option (List ModelEntry))
  | exc

def generateContentMethod : List Char := "generateContent".toList

def defaultModel : List Char := "gemini-1.5-flash".toList

def preferredModels : List (List Char) :=
  ["gemini-1.5-flash".toList, "gemini-1.5-pro".toList,
    "gemini-1.5-flash-latest".toList, "gemini-pro".toList, "gemini-1.0-pro".toList]

/-- `model.get('name', '').replace('models/', '')` (line 54). -/
def normalizeName (n : List Char) : List Char := removeAll "models/".toList n

/-- Python's `preferred in available`: substring containment. -/
def containsSub (pat l : List Char) : Bool := (findSubstr pat l).isSome

/-- Names of the `generateContent`-capable entries, in catalog order
(lines 52-57). -/
def availableModels (entries : List ModelEntry) : List (List Char) :=
  (entries.filter fun m => m.supportedGenerationMethods.contains generateContentMethod).map
    fun m => normalizeName m.name

/-- The nested preference loop (lines 60-63): walk the preference list and
return the first available name containing the current preference. -/
def firstPreferred : List (List Char) → List (List Char) → Option (List Char)
  | [], _ => none
  | p :: ps, avail =>
    match avail.find? fun a => containsSub p a with
    | some a => some a
    | none => firstPreferred ps avail

/-- `get_available_model` as a function of the catalog-fetch outcome.  All
exceptions are caught inside the function (modelled by totality plus the
`exc` constructor), so nothing propagates past this boundary. -/
def get_available_model (o : CatalogOutcome) : List Char :=
  match o with
  | .exc => defaultModel
  | .response status modelsKey =>
    if status == 200 then
      match modelsKey with
      | some entries =>
        match firstPreferred preferredModels (availableModels entries) with
        | some m => m
        | none =>
          match availableModels entries with
          | a :: _ => a
          | [] => defaultModel
      | none => defaultModel
    else defaultModel

/-- Claim C7: with `gemini-1.5-pro-001` and `gemini-1.0-pro` capable of
`generateContent`, the selector returns `gemini-1.5-pro-001` (matched by the
preference substring `gemini-1.5-pro`); an exception, an empty catalog, a
missing `models` key, or a non-200 status all yield the hardcoded default
`gemini-1.5-flash`. -/
theorem model_selector_cases :
    get_available_model (.response 200 (some
        [⟨"models/gemini-1.5-pro-001".toList, [generateContentMethod]⟩,
          ⟨"models/gemini-1.0-pro".toList, [generateContentMethod]⟩]))
      = "gemini-1.5-pro-001".toList
    ∧ get_available_model .exc = "gemini-1.5-flash".toList
    ∧ get_available_model (.response 200 (some [])) = "gemini-1.5-flash".toList
    ∧ get_available_model (.response 200 none) = "gemini-1.5-flash".toList
    ∧ get_available_model (.response 503 (some
        [⟨"models/gemini-1.5-pro-001".toList, [generateContentMethod]⟩]))
      = "gemini-1.5-flash".toList := by
  decide

theorem removeAll_self_append {pat : List Char} (hne : pat ≠ []) (rest : List Char)
    (h : ¬ occursIn pat rest) : removeAll pat (pat ++ rest) = rest := by
  have hstep : removeAll pat (pat ++ rest)
      = removeAll pat ((pat ++ rest).drop pat.length) := by
    match pat, hne with
    | p :: ps, hne =>
      rw [List.cons_append]
      refine removeAll_cons_pos hne ?_
      rw [← List.cons_append]
      exact isPrefixOf_append_self _ _
  rw [hstep, List.drop_left, removeAll_eq_self h]

/-- Claim C10 (amended): the normalization deletes every occurrence of
`models/` (a single left-to-right `replace`, not a leading-prefix strip); for
a provider-shaped name `models/<bare>` in which `models/` does not occur in
`<bare>`, the result is the bare form. -/
theorem normalizeName_models_prefix (rest : List Char)
    (h : ¬ occursIn "models/".toList rest) :
    normalizeName ("models/".toList ++ rest) = rest := by
  unfold normalizeName
  exact removeAll_self_append (by decide) rest h

/-- Witness for `normalizeName_models_prefix` at `models/gemini-1.5-flash`. -/
theorem normalizeName_models_prefix_witness :
    normalizeName ("models/".toList ++ "gemini-1.5-flash".toList)
      = "gemini-1.5-flash".toList :=
  normalizeName_models_prefix "gemini-1.5-flash".toList
    (not_occursIn_of_findSubstr_none (by decide))

/-- Claim C10 (counterexample): `replace('models/','')` is not a
leading-prefix removal — an entry named `xmodels/y` is normalized to `xy`
(a leading-prefix strip would leave it unchanged), and that is the identifier
the selector returns. -/
theorem normalizeName_not_leading_only :
    get_available_model (.response 200 (some
        [⟨"xmodels/y".toList, [generateContentMethod]⟩])) = "xy".toList
    ∧ "xy".toList ≠ "xmodels/y".toList := ⟨by decide, by decide⟩

/-! ## Completion Client (`generate_sql_query`, lines 138-174) -/

/-- Outcome of the completion POST: an HTTP response carrying the status
code, the body text, and the extracted candidate texts (`none` when the JSON
has no `candidates` key); or a `requests.exceptions.RequestException`; or any
other exception (e.g. a malformed candidate structure). -/
inductive ApiOutcome where
  | httpResponse (status : Nat) (body : List Char) (candidates : Option (List (List Char)))
  | requestException (msg : List Char)
  | otherException (msg : List Char)

/-- Decimal digits of a natural number (fuel-driven; Python `str(int)`). -/
def natChars : Nat → Nat → List Char
  | 0, _ => []
  | fuel + 1, n =>
    if n < 10 then [Char.ofNat (48 + n)]
    else natChars fuel (n / 10) ++ [Char.ofNat (48 + n % 10)]

def natToChars (n : Nat) : List Char := natChars (n + 1) n

/-- The result of `generate_sql_query` as a function of the HTTP outcome
(lines 146-174): the sanitized first-candidate text on HTTP 200 with a
non-empty candidate list, a prefixed error string otherwise. -/
def generate_sql_query (o : ApiOutcome) : List Char :=
  match o with
  | .httpResponse status body cands =>
    if status != 200 then
      "API Error ".toList ++ natToChars status ++ ": ".toList ++ body
    else
      match cands with
      | some (t :: _) => sanitize (pyStrip t)
      | some [] => "Error: No response generated".toList
      | none => "Error: No response generated".toList
  | .requestException m => "Network error: ".toList ++ m
  | .otherException m => "Error generating query: ".toList ++ m

/-- The guard in `main` (line 264): results with these prefixes are printed
and skipped — never sanitized further and never executed. -/
def mainSkips (q : List Char) : Bool :=
  "Error".toList.isPrefixOf q || "API Error".toList.isPrefixOf q
    || "Network error".toList.isPrefixOf q

theorem isPrefixOf_append_right {pat a : List Char} (b : List Char)
    (h : pat.isPrefixOf a = true) : pat.isPrefixOf (a ++ b) = true := by
  obtain ⟨u, hu⟩ := exists_append_of_isPrefixOf h
  subst hu
  rw [List.append_assoc]
  exact isPrefixOf_append_self _ _

/-- Claim C8: the Completion Client returns the (sanitized) extracted
candidate text only on HTTP 200 with a non-empty candidate list; every other
outcome yields a distinguishable error string — `API Error <status>: <body>`
for a non-200 status, `Error: No response generated` for a missing or empty
candidate list, `Network error: <detail>` for a request exception, and
`Error generating query: <detail>` otherwise — and `main`'s guard skips each
of them, so they are never executed. -/
theorem completion_client_discriminates (status : Nat)
    (body m t : List Char) (cands : Option (List (List Char))) (rest : List (List Char)) :
    (status ≠ 200 →
      generate_sql_query (.httpResponse status body cands)
        = "API Error ".toList ++ natToChars status ++ ": ".toList ++ body
      ∧ mainSkips (generate_sql_query (.httpResponse status body cands)) = true)
    ∧ generate_sql_query (.httpResponse 200 body none)
        = "Error: No response generated".toList
    ∧ generate_sql_query (.httpResponse 200 body (some []))
        = "Error: No response generated".toList
    ∧ mainSkips (generate_sql_query (.httpResponse 200 body none)) = true
    ∧ generate_sql_query (.httpResponse 200 body (some (t :: rest)))
        = sanitize (pyStrip t)
    ∧ (generate_sql_query (.requestException m) = "Network error: ".toList ++ m
      ∧ mainSkips (generate_sql_query (.requestException m)) = true)
    ∧ (generate_sql_query (.otherException m) = "Error generating query: ".toList ++ m
      ∧ mainSkips (generate_sql_query (.otherException m)) = true) := by
  refine ⟨?_, rfl, rfl,
    show mainSkips "Error: No response generated".toList = true by decide,
    rfl, ⟨rfl, ?_⟩, ⟨rfl, ?_⟩⟩
  · intro hne
    have hb : (status != 200) = true := by simpa using hne
    constructor
    · simp only [generate_sql_query, hb, if_true]
    · simp only [generate_sql_query, hb, if_true, mainSkips]
      have hp : "API Error".toList.isPrefixOf
          ("API Error ".toList ++ natToChars status ++ ": ".toList ++ body) = true := by
        refine isPrefixOf_append_right _ (isPrefixOf_append_right _
          (isPrefixOf_append_right _ (by decide)))
      rw [hp]
      simp
  · show mainSkips ("Network error: ".toList ++ m) = true
    unfold mainSkips
    rw [isPrefixOf_append_right m (show "Network error".toList.isPrefixOf
      "Network error: ".toList = true by decide)]
    simp
  · show mainSkips ("Error generating query: ".toList ++ m) = true
    unfold mainSkips
    rw [isPrefixOf_append_right m (show "Error".toList.isPrefixOf
      "Error generating query: ".toList = true by decide)]
    simp

/-- Witness for `completion_client_discriminates` at status 404. -/
theorem completion_client_witness :
    generate_sql_query (.httpResponse 404 "not found".toList none)
      = "API Error ".toList ++ natToChars 404 ++ ": ".toList ++ "not found".toList
    ∧ mainSkips (generate_sql_query (.httpResponse 404 "not found".toList none)) = true :=
  (completion_client_discriminates 404 "not found".toList [] [] none []).1 (by decide)

/-! ## Database resource handling (`get_database_schema`, lines 74-103, and
`execute_query`, lines 176-194)

`mysql.connector` calls are numbered in program order and `fails k = true`
means the `k`-th call raises `mysql.connector.Error`.  In the source, both
functions call `cursor.close()` / `conn.close()` only inline on the success
path; the `except mysql.connector.Error` branch returns an error value
without closing anything. -/

/-- Which handles were opened and closed during one call. -/
structure DbState where
  connOpened : Bool
  cursorOpened : Bool
  connClosed : Bool
  cursorClosed : Bool

/-- First failing call index inside the per-table loop of
`get_database_schema` (call `4 + 2*j` is `DESCRIBE`, `5 + 2*j` its
`fetchall`), if any. -/
def schemaLoopFail (fails : Nat → Bool) : Nat → List (List Char) → Option Nat
  | _, [] => none
  | k, _ :: ts =>
    if fails k then some k
    else if fails (k + 1) then some (k + 1)
    else schemaLoopFail fails (k + 2) ts

/-- Resource behaviour of `get_database_schema`: calls are 0 `connect`,
1 `cursor()`, 2 `execute SHOW TABLES`, 3 `fetchall`, then the loop; the
closes on lines 97-98 run only when everything succeeded.  The `Bool`
component is `true` on the success path. -/
def get_database_schema (fails : Nat → Bool) (tables : List (List Char)) : DbState × Bool :=
  if fails 0 then (⟨false, false, false, false⟩, false)
  else if fails 1 then (⟨true, false, false, false⟩, false)
  else if fails 2 then (⟨true, true, false, false⟩, false)
  else if fails 3 then (⟨true, true, false, false⟩, false)
  else
    match schemaLoopFail fails 4 tables with
    | some _ => (⟨true, true, false, false⟩, false)
    | none => (⟨true, true, true, true⟩, true)

/-- Resource behaviour of `execute_query`: calls are 0 `connect`,
1 `cursor()`, 2 `execute`, 3 `fetchall`; the closes on lines 188-189 run only
on the success path. -/
def execute_query (fails : Nat → Bool) : DbState × Bool :=
  if fails 0 then (⟨false, false, false, false⟩, false)
  else if fails 1 then (⟨true, false, false, false⟩, false)
  else if fails 2 then (⟨true, true, false, false⟩, false)
  else if fails 3 then (⟨true, true, false, false⟩, false)
  else (⟨true, true, true, true⟩, true)

/-- Claim C6 (code bug): when `cursor.execute` raises (call index 2) in
`execute_query`, or a `DESCRIBE` raises (call index 4) in
`get_database_schema`, the opened connection and cursor are left unclosed —
only the success path releases them. -/
theorem db_resources_leak_on_error :
    ((execute_query fun k => k == 2).1.connOpened = true
      ∧ (execute_query fun k => k == 2).1.cursorOpened = true
      ∧ (execute_query fun k => k == 2).1.connClosed = false
      ∧ (execute_query fun k => k == 2).1.cursorClosed = false)
    ∧ ((get_database_schema (fun k => k == 4) ["employees".toList]).1.connOpened = true
      ∧ (get_database_schema (fun k => k == 4) ["employees".toList]).1.connClosed = false
      ∧ (get_database_schema (fun k => k == 4) ["employees".toList]).1.cursorClosed = false)
    ∧ ((execute_query fun _ => false).1.connClosed = true
      ∧ (execute_query fun _ => false).1.cursorClosed = true)
    ∧ ((get_database_schema (fun _ => false) ["employees".toList]).1.connClosed = true
      ∧ (get_database_schema (fun _ => false) ["employees".toList]).1.cursorClosed = true) := by
  decide

/-! ## Result Formatter (`format_results`, lines 196-216) -/

/-- A result cell: values arrive from the driver as Python ints or strings. -/
inductive CellValue where
  | vInt (n : Int)
  | vStr (s : List Char)
deriving DecidableEq

/-- Python `str(val)` for a cell. -/
def pyStr : CellValue → List Char
  | .vInt n => if n < 0 then '-' :: natToChars n.natAbs else natToChars n.natAbs
  | .vStr s => s

/-- The inner width loop over one row (lines 203-205):
`widths[i] = max(widths[i], len(str(val)))` for `i, val` in `enumerate(row)`;
`none` models the uncaught `IndexError` raised when the row has more cells
than there are widths. -/
def rowWidths : List Nat → List CellValue → Option (List Nat)
  | ws, [] => some ws
  | [], _ :: _ => none
  | w :: ws, v :: vs => (rowWidths ws vs).map fun r => max w (pyStr v).length :: r

/-- Lines 202-205: start from the header lengths and fold every row through
the width loop. -/
def computeWidths (cols : List (List Char)) (rows : List (List CellValue)) :
    Option (List Nat) :=
  rows.foldl (fun acc row => acc.bind fun ws => rowWidths ws row)
    (some (cols.map List.length))

/-- `str(x).ljust(w)`. -/
def ljust (s : List Char) (w : Nat) : List Char :=
  s ++ List.replicate (w - s.length) ' '

/-- The per-line cell computation `x.ljust(widths[i]) for i, x in
enumerate(xs)`, indexing into the widths exactly as `enumerate` does. -/
def justCells {α : Type} (toS : α → List Char) : List Nat → List α → Option (List (List Char))
  | _, [] => some []
  | [], _ :: _ => none
  | w :: ws, x :: xs => (justCells toS ws xs).map fun r => ljust (toS x) w :: r

def mapOpt {α β : Type} (f : α → Option β) : List α → Option (List β)
  | [] => some []
  | x :: xs =>
    match f x, mapOpt f xs with
    | some y, some ys => some (y :: ys)
    | _, _ => none

/-- Line 209: `"-+-".join("-" * width for width in widths)`. -/
def sepLine (ws : List Nat) : List Char :=
  List.intercalate "-+-".toList (ws.map fun w => List.replicate w '-')

/-- `format_results`: the fixed message on an empty row list, otherwise the
header/separator/row table; `none` models an uncaught `IndexError`. -/
def format_results (cols : List (List Char)) (rows : List (List CellValue)) :
    Option (List Char) :=
  if rows.isEmpty then some "No results found.".toList
  else
    (computeWidths cols rows).bind fun ws =>
      (justCells id ws cols).bind fun hdr =>
        (mapOpt (fun r => (justCells pyStr ws r).map (List.intercalate " | ".toList)) rows).map
          fun rws =>
            ('\n' :: List.intercalate " | ".toList hdr)
              ++ ('\n' :: sepLine ws)
              ++ ('\n' :: List.intercalate "\n".toList rws)

/-- Specification of one column's display width: the maximum of the header
length and the stringified lengths of that column's cells. -/
def colWidth (cols : List (List Char)) (rows : List (List CellValue)) (i : Nat) : Nat :=
  rows.foldl (fun m r =>
      match r[i]? with
      | some v => max m (pyStr v).length
      | none => m)
    ((cols[i]?.getD []).length)

/-- Total version of the row pass, defined only to state the refinement. -/
def bumpWidths : List Nat → List CellValue → List Nat
  | ws, [] => ws
  | [], _ :: _ => []
  | w :: ws, v :: vs => max w (pyStr v).length :: bumpWidths ws vs

theorem rowWidths_some :
    ∀ (row : List CellValue) (ws : List Nat), row.length ≤ ws.length →
      rowWidths ws row = some (bumpWidths ws row) := by
  intro row
  induction row with
  | nil => intro ws _; cases ws <;> rfl
  | cons v vs ih =>
    intro ws h
    cases ws with
    | nil => simp at h
    | cons w ws =>
      have := ih ws (by simpa using h)
      simp [rowWidths, bumpWidths, this]

theorem rowWidths_none :
    ∀ (row : List CellValue) (ws : List Nat), ws.length < row.length →
      rowWidths ws row = none := by
  intro row
  induction row with
  | nil => intro ws h; simp at h
  | cons v vs ih =>
    intro ws h
    cases ws with
    | nil => rfl
    | cons w ws =>
      have := ih ws (by simpa using h)
      simp [rowWidths, this]

theorem rowWidths_length :
    ∀ (row : List CellValue) (ws ws' : List Nat), rowWidths ws row = some ws' →
      ws'.length = ws.length := by
  intro row
  induction row with
  | nil =>
    intro ws ws' h
    cases ws <;> (cases h; rfl)
  | cons v vs ih =>
    intro ws ws' h
    cases ws with
    | nil => cases h
    | cons w ws =>
      simp only [rowWidths, Option.map_eq_some'] at h
      obtain ⟨u, hu, rfl⟩ := h
      simp [ih ws u hu]

theorem bumpWidths_length :
    ∀ (row : List CellValue) (ws : List Nat), (bumpWidths ws row).length = ws.length := by
  intro row
  induction row with
  | nil => intro ws; cases ws <;> rfl
  | cons v vs ih =>
    intro ws
    cases ws with
    | nil => rfl
    | cons w ws => simp [bumpWidths, ih ws]

theorem bumpWidths_getElem? :
    ∀ (ws : List Nat) (row : List CellValue) (i : Nat),
      (bumpWidths ws row)[i]? =
        match ws[i]? with
        | none => none
        | some w =>
          match row[i]? with
          | some v => some (max w (pyStr v).length)
          | none => some w := by
  intro ws
  induction ws with
  | nil =>
    intro row i
    cases row <;> simp [bumpWidths]
  | cons w ws ih =>
    intro row i
    cases row with
    | nil =>
      cases hh : (w :: ws)[i]? <;> simp [bumpWidths, hh]
    | cons v vs =>
      cases i with
      | zero => simp [bumpWidths]
      | succ i => simpa [bumpWidths] using ih vs i

theorem foldl_bumpWidths_length :
    ∀ (rows : List (List CellValue)) (ws : List Nat),
      (rows.foldl bumpWidths ws).length = ws.length := by
  intro rows
  induction rows with
  | nil => intro ws; rfl
  | cons r rs ih =>
    intro ws
    rw [List.foldl_cons, ih, bumpWidths_length]

theorem foldl_bumpWidths_getElem? :
    ∀ (rows : List (List CellValue)) (ws : List Nat) (i : Nat) (w : Nat),
      ws[i]? = some w →
      (rows.foldl bumpWidths ws)[i]? =
        some (rows.foldl (fun m r =>
          match r[i]? with
          | some v => max m (pyStr v).length
          | none => m) w) := by
  intro rows
  induction rows with
  | nil =>
    intro ws i w h
    simpa using h
  | cons r rs ih =>
    intro ws i w h
    simp only [List.foldl_cons]
    apply ih
    rw [bumpWidths_getElem?, h]
    cases hr : r[i]? <;> simp

theorem foldl_step_none (rows : List (List CellValue)) :
    rows.foldl (fun acc row => acc.bind fun u => rowWidths u row) none = none := by
  induction rows with
  | nil => rfl
  | cons r rs ih => simpa using ih

theorem foldl_step_some :
    ∀ (rows : List (List CellValue)) (ws : List Nat),
      (∀ r ∈ rows, r.length ≤ ws.length) →
      rows.foldl (fun acc row => acc.bind fun u => rowWidths u row) (some ws)
        = some (rows.foldl bumpWidths ws) := by
  intro rows
  induction rows with
  | nil => intro ws _; rfl
  | cons r rs ih =>
    intro ws h
    simp only [List.foldl_cons, Option.some_bind]
    rw [rowWidths_some r ws (h r (by simp))]
    apply ih
    intro r' hr'
    rw [bumpWidths_length]
    exact h r' (by simp [hr'])

theorem computeWidths_spec (cols : List (List Char)) (rows : List (List CellValue))
    (h : ∀ r ∈ rows, r.length ≤ cols.length) :
    computeWidths cols rows = some ((List.range cols.length).map (colWidth cols rows)) := by
  unfold computeWidths
  rw [foldl_step_some rows (cols.map List.length) (by simpa using h)]
  congr 1
  apply List.ext_getElem?
  intro n
  by_cases hn : n < cols.length
  · have hcn : cols[n]? = some cols[n] := List.getElem?_eq_getElem hn
    have hws : (cols.map List.length)[n]? = some (cols[n].length) := by
      rw [List.getElem?_map, hcn]
      rfl
    rw [foldl_bumpWidths_getElem? rows _ n _ hws, List.getElem?_map,
      List.getElem?_range hn, Option.map_some']
    unfold colWidth
    rw [hcn]
    rfl
  · have h1 : (rows.foldl bumpWidths (cols.map List.length)).length ≤ n := by
      rw [foldl_bumpWidths_length, List.length_map]
      omega
    have h2 : ((List.range cols.length).map (colWidth cols rows)).length ≤ n := by
      rw [List.length_map, List.length_range]
      omega
    rw [List.getElem?_eq_none h1, List.getElem?_eq_none h2]

theorem computeWidths_none (cols : List (List Char)) (rows : List (List CellValue))
    (h : ∃ r ∈ rows, cols.length < r.length) :
    computeWidths cols rows = none := by
  unfold computeWidths
  obtain ⟨r, hr, hl⟩ := h
  have : ∀ (rs : List (List CellValue)) (ws : List Nat),
      (∃ x ∈ rs, ws.length < x.length) →
      rs.foldl (fun acc row => acc.bind fun u => rowWidths u row) (some ws) = none := by
    intro rs
    induction rs with
    | nil =>
      rintro ws ⟨x, hx, _⟩
      simp at hx
    | cons a as ih =>
      rintro ws ⟨x, hx, hxl⟩
      simp only [List.foldl_cons, Option.some_bind]
      rcases List.mem_cons.mp hx with heq | hmem
      · subst heq
        rw [rowWidths_none x ws hxl]
        exact foldl_step_none as
      · cases hrw : rowWidths ws a with
        | none => exact foldl_step_none as
        | some ws' =>
          apply ih
          refine ⟨x, hmem, ?_⟩
          rw [rowWidths_length a ws ws' hrw]
          exact hxl
  exact this rows (cols.map List.length) ⟨r, hr, by simpa using hl⟩

theorem justCells_isSome {α : Type} (toS : α → List Char) :
    ∀ (xs : List α) (ws : List Nat), xs.length ≤ ws.length →
      (justCells toS ws xs).isSome = true := by
  intro xs
  induction xs with
  | nil => intro ws _; cases ws <;> rfl
  | cons x xs ih =>
    intro ws h
    cases ws with
    | nil => simp at h
    | cons w ws =>
      have := ih ws (by simpa using h)
      cases hj : justCells toS ws xs with
      | none => rw [hj] at this; simp at this
      | some r => simp [justCells, hj]

theorem mapOpt_isSome {α β : Type} (f : α → Option β) :
    ∀ (l : List α), (∀ x ∈ l, (f x).isSome = true) → (mapOpt f l).isSome = true := by
  intro l
  induction l with
  | nil => intro _; rfl
  | cons x xs ih =>
    intro h
    have hx := h x (by simp)
    have hxs := ih fun y hy => h y (by simp [hy])
    cases hfx : f x with
    | none => rw [hfx] at hx; simp at hx
    | some y =>
      cases hmo : mapOpt f xs with
      | none => rw [hmo] at hxs; simp at hxs
      | some ys => simp [mapOpt, hfx, hmo]

/-- Claim C9: with a non-empty row list whose rows all fit within the column
list, the formatter completes and the width pass computes, per column, the
maximum of the header length and that column's stringified cell lengths; a
row with more cells than columns makes the width pass (and the whole
formatter) fail with an out-of-range index. -/
theorem format_results_widths (cols : List (List Char)) (rows : List (List CellValue)) :
    (rows ≠ [] → (∀ r ∈ rows, r.length ≤ cols.length) →
      computeWidths cols rows = some ((List.range cols.length).map (colWidth cols rows))
      ∧ (format_results cols rows).isSome = true)
    ∧ ((∃ r ∈ rows, cols.length < r.length) →
      computeWidths cols rows = none ∧ format_results cols rows = none) := by
  constructor
  · intro hne hfit
    refine ⟨computeWidths_spec cols rows hfit, ?_⟩
    obtain ⟨r0, rs0, rfl⟩ : ∃ r0 rs0, rows = r0 :: rs0 := by
      cases rows with
      | nil => exact absurd rfl hne
      | cons a b => exact ⟨a, b, rfl⟩
    unfold format_results
    simp only [List.isEmpty_cons, Bool.false_eq_true, if_false]
    rw [computeWidths_spec _ _ hfit, Option.some_bind]
    have hWlen : ((List.range cols.length).map (colWidth cols (r0 :: rs0))).length
        = cols.length := by
      rw [List.length_map, List.length_range]
    have h1 := justCells_isSome id cols
      ((List.range cols.length).map (colWidth cols (r0 :: rs0))) (by omega)
    obtain ⟨hdr, hhdr⟩ := Option.isSome_iff_exists.mp h1
    rw [hhdr, Option.some_bind]
    have h2 : (mapOpt (fun r =>
        (justCells pyStr ((List.range cols.length).map (colWidth cols (r0 :: rs0))) r).map
          (List.intercalate " | ".toList)) (r0 :: rs0)).isSome = true := by
      apply mapOpt_isSome
      intro r hr
      have h3 := justCells_isSome pyStr r
        ((List.range cols.length).map (colWidth cols (r0 :: rs0)))
        (by rw [hWlen]; exact hfit r hr)
      cases hj : justCells pyStr ((List.range cols.length).map (colWidth cols (r0 :: rs0))) r with
      | none => rw [hj] at h3; simp at h3
      | some u => simp
    obtain ⟨rws, hrws⟩ := Option.isSome_iff_exists.mp h2
    rw [hrws]
    rfl
  · intro hex
    have hc := computeWidths_none cols rows hex
    refine ⟨hc, ?_⟩
    obtain ⟨r, hr, _⟩ := hex
    obtain ⟨r0, rs0, rfl⟩ : ∃ r0 rs0, rows = r0 :: rs0 := by
      cases rows with
      | nil => simp at hr
      | cons a b => exact ⟨a, b, rfl⟩
    unfold format_results
    simp only [List.isEmpty_cons, Bool.false_eq_true, if_false]
    rw [hc]
    rfl

/-- Witness for `format_results_widths`: the spec's `id`/`name` example
(widths 2 and 4) and a one-column table with a two-cell row. -/
theorem format_results_widths_witness :
    (computeWidths ["id".toList, "name".toList]
        [[.vInt 1, .vStr "Al".toList], [.vInt 22, .vStr "Bob".toList]]
      = some ((List.range 2).map (colWidth ["id".toList, "name".toList]
          [[.vInt 1, .vStr "Al".toList], [.vInt 22, .vStr "Bob".toList]]))
      ∧ (format_results ["id".toList, "name".toList]
          [[.vInt 1, .vStr "Al".toList], [.vInt 22, .vStr "Bob".toList]]).isSome = true)
    ∧ ((List.range 2).map (colWidth ["id".toList, "name".toList]
          [[.vInt 1, .vStr "Al".toList], [.vInt 22, .vStr "Bob".toList]]) = [2, 4])
    ∧ (computeWidths ["id".toList] [[.vInt 1, .vInt 2]] = none
      ∧ format_results ["id".toList] [[.vInt 1, .vInt 2]] = none) :=
  ⟨(format_results_widths _ _).1 (by decide) (by decide),
    by decide,
    (format_results_widths _ _).2 ⟨[.vInt 1, .vInt 2], by decide, by decide⟩⟩

example : sanitize "```sql\nSELECT * FROM employees\n```".toList
    = "SELECT * FROM employees".toList := by decide

example : sanitize "SELECT 1; ;".toList = "SELECT 1;".toList := by decide

example : sanitize "SELECT 1;".toList = "SELECT 1".toList := by decide

example : sanitize "  hello  ".toList = "hello".toList := by decide

example : stripQuotes "\"\"x\"\"".toList = "x".toList := by decide

end PromptToSQL
